import Mathlib

/-!
# SchoolsOfFish: the flocking engine of `src/entities/boid.cpp`

A shallow embedding of `Boid` and `BoidSystem`.  The C++ `float` is read as an
element of an arbitrary linearly ordered field `F` (exact arithmetic; `ℚ` for
evaluation, `ℝ` where a square root is needed).  A division whose divisor is
zero has no value in exact arithmetic (the float code produces NaN or an
infinity there), so every operation that divides returns an `Option`.

The scratch list `m_NearBoids` holds pointers into `m_Boids`; a pointer to
`m_Boids[j]` is modelled by the index `j`, and pointer identity by equality of
indices.
-/

namespace SchoolsOfFish

variable {F : Type} [LinearOrderedField F]

/-! ## Vector and boundary primitives -/

/-- Modelled from the spec: the header declaring `Vec2f` is not part of the
sources; section 3 gives it as the value type `{x: float, y: float}`. -/
structure Vec2f (F : Type) where
  x : F
  y : F
deriving DecidableEq

/-- Modelled from the spec: `Boundary2f` is declared in a header that is not
part of the sources; section 3 gives it as `{min: Vector2, max: Vector2}`. -/
structure Boundary2f (F : Type) where
  min : Vec2f F
  max : Vec2f F
deriving DecidableEq

namespace Vec2f

/-- Modelled from the spec: component-wise addition (`operator+`, section 4.1). -/
def add (a b : Vec2f F) : Vec2f F := ⟨a.x + b.x, a.y + b.y⟩

/-- Modelled from the spec: component-wise subtraction (`operator-`, section 4.1). -/
def sub (a b : Vec2f F) : Vec2f F := ⟨a.x - b.x, a.y - b.y⟩

/-- Modelled from the spec: multiplication by a scalar (`operator*`, section 4.1). -/
def scale (a : Vec2f F) (s : F) : Vec2f F := ⟨a.x * s, a.y * s⟩

/-- Modelled from the spec: division by a scalar (`operator/`, section 4.1);
"division by zero scalar is a caller error (undefined numeric result)", hence
no value when `s = 0`. -/
def div (a : Vec2f F) (s : F) : Option (Vec2f F) :=
  if s = 0 then none else some ⟨a.x / s, a.y / s⟩

/-- Modelled from the spec: `length2(v) = x² + y²` (section 4.1). -/
def length2 (v : Vec2f F) : F := v.x * v.x + v.y * v.y

/-- Modelled from the spec: `length(v) = sqrt(length2(v))` (section 4.1); the
square root of the number type is a parameter. -/
def length (sqrt : F → F) (v : Vec2f F) : F := sqrt (length2 v)

/-- Modelled from the spec: `normalize(v)` returns `v / length(v)`, undefined
when `length(v) == 0` (section 4.1). -/
def normalize (sqrt : F → F) (v : Vec2f F) : Option (Vec2f F) :=
  v.div (length sqrt v)

instance : Add (Vec2f F) := ⟨add⟩
instance : Sub (Vec2f F) := ⟨sub⟩
instance : HMul (Vec2f F) F (Vec2f F) := ⟨scale⟩

end Vec2f

/-- Division of two floats: no value when the divisor is zero. -/
def fdiv (a b : F) : Option F :=
  if b = 0 then none else some (a / b)

/-! ## Boid -/

/-- One agent: `m_Position` and `m_Velocity`. -/
structure Boid (F : Type) where
  m_Position : Vec2f F
  m_Velocity : Vec2f F
deriving DecidableEq

namespace Boid

/-- Accessor `Boid::getPosition`. -/
def getPosition (b : Boid F) : Vec2f F := b.m_Position

/-- Accessor `Boid::getVelocity`. -/
def getVelocity (b : Boid F) : Vec2f F := b.m_Velocity

/-- Mutator `Boid::setPosition`. -/
def setPosition (b : Boid F) (v : Vec2f F) : Boid F := { b with m_Position := v }

/-- Mutator `Boid::setVelocity`. -/
def setVelocity (b : Boid F) (v : Vec2f F) : Boid F := { b with m_Velocity := v }

/-- Method `Boid::cohere`.  `nearBoids` are the agents the pointer list refers to, read
at the time of the call. -/
def cohere (cohesion : F) (nearBoids : List (Boid F)) (b : Boid F) : Option (Boid F) :=
  if nearBoids.isEmpty then some b
  else do
    let averagePosition :=
      nearBoids.foldl (fun acc n => acc + n.getPosition) (⟨0, 0⟩ : Vec2f F)
    let averagePosition ← averagePosition.div (nearBoids.length : F)
    let cohDir := averagePosition - b.m_Position
    pure { b with m_Velocity := b.m_Velocity + cohDir * cohesion }

/-- One iteration of the loop of `Boid::separate`. -/
def separateStep (position : Vec2f F) (minSeparationDistance : F)
    (sepDir : Vec2f F) (n : Boid F) : Option (Vec2f F) := do
  let v := position - n.getPosition
  let d ← fdiv (Vec2f.length2 v) (minSeparationDistance * minSeparationDistance)
  let c ← v.div d
  pure (sepDir + c)

/-- Method `Boid::separate`. -/
def separate (separation minSeparationDistance : F) (nearBoids : List (Boid F))
    (b : Boid F) : Option (Boid F) :=
  if nearBoids.isEmpty then some b
  else do
    let sepDir ←
      nearBoids.foldlM (separateStep b.m_Position minSeparationDistance) (⟨0, 0⟩ : Vec2f F)
    pure { b with m_Velocity := b.m_Velocity + sepDir * separation }

/-- Method `Boid::align`.  The source also computes `aliDir - m_Velocity` into a local
that is never read; what is added to the velocity is `aliDir * alignment`. -/
def align (alignment : F) (nearBoids : List (Boid F)) (b : Boid F) : Option (Boid F) :=
  if nearBoids.isEmpty then some b
  else do
    let aliDir :=
      nearBoids.foldl (fun acc n => acc + n.getVelocity) (⟨0, 0⟩ : Vec2f F)
    let aliDir ← aliDir.div (nearBoids.length : F)
    pure { b with m_Velocity := b.m_Velocity + aliDir * alignment }

/-- Method `Boid::constrainBounds`: two independent `if / else if` chains, one per axis. -/
def constrainBounds (bounds : Boundary2f F) (boundaryRepel : Vec2f F) (b : Boid F) : Boid F :=
  let vx :=
    if b.m_Position.x < bounds.min.x then b.m_Velocity.x + boundaryRepel.x
    else if b.m_Position.x > bounds.max.x then b.m_Velocity.x - boundaryRepel.x
    else b.m_Velocity.x
  let vy :=
    if b.m_Position.y < bounds.min.y then b.m_Velocity.y + boundaryRepel.y
    else if b.m_Position.y > bounds.max.y then b.m_Velocity.y - boundaryRepel.y
    else b.m_Velocity.y
  { b with m_Velocity := ⟨vx, vy⟩ }

/-- Method `Boid::constrainSpeed`. -/
def constrainSpeed (sqrt : F → F) (maxSpeed : F) (b : Boid F) : Option (Boid F) :=
  if Vec2f.length2 b.m_Velocity ≥ maxSpeed * maxSpeed then do
    let dir ← Vec2f.normalize sqrt b.m_Velocity
    pure { b with m_Velocity := dir * maxSpeed }
  else some b

/-- Method `Boid::update`. -/
def update (dt : F) (b : Boid F) : Boid F :=
  { b with m_Position := b.m_Position + b.m_Velocity * dt }

end Boid

/-! ## BoidSystem -/

/-- The fields of `BoidSystem` that the simulation reads or writes (render size,
colour and the display list are left out). -/
structure BoidSystem (F : Type) where
  m_Cohesion : F
  m_Separation : F
  m_Alignment : F
  m_ViewDistance : F
  m_MinSeparationDistance : F
  m_MaxSpeed : F
  m_BoundaryRepel : Vec2f F
  m_Boundary : Boundary2f F
  m_Boids : List (Boid F)
  m_NearBoids : List Nat
deriving DecidableEq

/-- Modelled from the spec: the results of `rand_float()`, `rand_direction()`
and `rand_float(0.5f, 1.0f)` (declared outside the sources) that `setCount`
consumes for one new agent. -/
structure Draw (F : Type) where
  px : F
  py : F
  dir : Vec2f F
  speed : F

/-- Modelled from the spec: the value-initialised `Boid` that `resize` appends
(the constructor is declared in `boid.h`, not part of the sources); `setCount`
overwrites both fields before they are read. -/
def Boid.init : Boid F := ⟨⟨0, 0⟩, ⟨0, 0⟩⟩

/-- The effect of `std::vector::resize` on the agent collection. -/
def resize (boids : List (Boid F)) (count : Nat) : List (Boid F) :=
  boids.take count ++ List.replicate (count - boids.length) Boid.init

namespace BoidSystem

/-- The agents the scratch pointers of `m_NearBoids` refer to, read now. -/
def nearBoids (s : BoidSystem F) : List (Boid F) :=
  s.m_NearBoids.filterMap (fun j => s.m_Boids[j]?)

/-- The body of the loop of `BoidSystem::findNearBoids` at index `e.1`, which
holds the agent `e.2`; `self` is the index whose address is `&boid`. -/
def findNearStep (viewDistance : F) (self : Nat) (boid : Boid F)
    (near : List Nat) (e : Nat × Boid F) : List Nat :=
  if self ≠ e.1 then
    let distance2 := Vec2f.length2 (boid.getPosition - e.2.getPosition)
    if distance2 ≤ viewDistance * viewDistance then near ++ [e.1] else near
  else near

/-- Method `BoidSystem::findNearBoids` called on a reference to `m_Boids[i]`; there is
no such reference when `i` is out of range. -/
def findNearBoids (s : BoidSystem F) (i : Nat) : Option (BoidSystem F) :=
  match s.m_Boids[i]? with
  | none => none
  | some boid =>
    some { s with
      m_NearBoids := s.m_Boids.enum.foldl (findNearStep s.m_ViewDistance i boid) [] }

/-- A method call `m_Boids[i].f(...)`: the agent at index `i` is replaced by
the result of `f`. -/
def modifyBoid (s : BoidSystem F) (i : Nat) (f : Boid F → Option (Boid F)) :
    Option (BoidSystem F) :=
  match s.m_Boids[i]? with
  | none => none
  | some b => (f b).map (fun b' => { s with m_Boids := s.m_Boids.set i b' })

/-- The body of the loop of `BoidSystem::update` for index `i`. -/
def updateBoid (sqrt : F → F) (dt : F) (s : BoidSystem F) (i : Nat) :
    Option (BoidSystem F) := do
  let s ← s.findNearBoids i
  let s ← s.modifyBoid i (Boid.cohere s.m_Cohesion s.nearBoids)
  let s ← s.modifyBoid i
    (Boid.separate s.m_Separation s.m_MinSeparationDistance s.nearBoids)
  let s ← s.modifyBoid i (Boid.align s.m_Alignment s.nearBoids)
  let s ← s.modifyBoid i
    (fun b => some (b.constrainBounds s.m_Boundary s.m_BoundaryRepel))
  let s ← s.modifyBoid i (Boid.constrainSpeed sqrt s.m_MaxSpeed)
  s.modifyBoid i (fun b => some (b.update dt))

/-- Method `BoidSystem::update`: the agents are processed in collection order, each
on the state left by the ones before it. -/
def update (sqrt : F → F) (dt : F) (s : BoidSystem F) : Option (BoidSystem F) :=
  (List.range s.m_Boids.length).foldlM (updateBoid sqrt dt) s

/-- The body of the loop of `BoidSystem::setCount` for index `i`. -/
def setCountStep (draws : Nat → Draw F) (s : BoidSystem F) (i : Nat) : BoidSystem F :=
  let position : Vec2f F :=
    ⟨(draws i).px * s.m_Boundary.max.x, (draws i).py * s.m_Boundary.max.y⟩
  let velocity : Vec2f F := (draws i).dir * ((draws i).speed * s.m_MaxSpeed)
  { s with
    m_Boids := s.m_Boids.modify (fun b => (b.setPosition position).setVelocity velocity) i }

/-- Method `BoidSystem::setCount`; `draws i` are the random values consumed for the
agent at index `i`. -/
def setCount (s : BoidSystem F) (count : Nat) (draws : Nat → Draw F) : BoidSystem F :=
  let oldCount := s.m_Boids.length
  let s1 : BoidSystem F := { s with m_Boids := resize s.m_Boids count, m_NearBoids := [] }
  (List.range' oldCount (s1.m_Boids.length - oldCount)).foldl (setCountStep draws) s1

end BoidSystem

/-! ## Closed forms and concrete states used in the statements -/

section Fixtures

variable {F : Type} [LinearOrderedField F]

/-- The contribution of one neighbour `n` to the separation sum of an agent at
`p`: `(p - p_n) / (|p - p_n|² / m²)`, as a pair of plain quotients. -/
def sepTerm (p : Vec2f F) (m : F) (n : Boid F) : Vec2f F :=
  ⟨(p.x - n.m_Position.x) / (Vec2f.length2 (p - n.m_Position) / (m * m)),
   (p.y - n.m_Position.y) / (Vec2f.length2 (p - n.m_Position) / (m * m))⟩

/-- The indices `findNearBoids` selects for the agent `bi` stored at index `i`:
those of the enumerated collection other than `i` whose agent is within the
view distance of `bi`, in collection order. -/
def nearOf (s : BoidSystem F) (i : Nat) (bi : Boid F) : List Nat :=
  (s.m_Boids.enum.filter (fun e => decide (e.1 ≠ i ∧
      Vec2f.length2 (bi.m_Position - e.2.m_Position)
        ≤ s.m_ViewDistance * s.m_ViewDistance))).map Prod.fst

/-- The state `s` with the agent at index `i` replaced by `b`. -/
def put (s : BoidSystem F) (i : Nat) (b : Boid F) : BoidSystem F :=
  { s with m_Boids := s.m_Boids.set i b }

/-- The five velocity steps of one loop iteration of `BoidSystem::update`, in
the order of the source, on an agent `b` whose neighbours are `ns`. -/
def steer (sqrt : F → F) (s : BoidSystem F) (ns : List (Boid F)) (b : Boid F) :
    Option (Boid F) :=
  (b.cohere s.m_Cohesion ns).bind fun b1 =>
  (b1.separate s.m_Separation s.m_MinSeparationDistance ns).bind fun b2 =>
  (b2.align s.m_Alignment ns).bind fun b3 =>
  (b3.constrainBounds s.m_Boundary s.m_BoundaryRepel).constrainSpeed sqrt s.m_MaxSpeed

/-- The tunable fields of a state: the state with both lists emptied. -/
def params (s : BoidSystem F) : BoidSystem F :=
  { s with m_Boids := [], m_NearBoids := [] }

/-- The boundary `(0,0)-(100,100)`. -/
def square100 (F : Type) [LinearOrderedField F] : Boundary2f F := ⟨⟨0, 0⟩, ⟨100, 100⟩⟩

/-- An agent resting at the corner `(0,0)`. -/
def cornerBoid (F : Type) [LinearOrderedField F] : Boid F := ⟨⟨0, 0⟩, ⟨0, 0⟩⟩

/-- Three agents: two identical ones at the origin and one far away, with
view distance `10`. -/
def trio (F : Type) [LinearOrderedField F] : BoidSystem F :=
  { m_Cohesion := 1, m_Separation := 1, m_Alignment := 1, m_ViewDistance := 10,
    m_MinSeparationDistance := 1, m_MaxSpeed := 50, m_BoundaryRepel := ⟨5, 5⟩,
    m_Boundary := square100 F,
    m_Boids := [⟨⟨0, 0⟩, ⟨1, 1⟩⟩, ⟨⟨0, 0⟩, ⟨1, 1⟩⟩, ⟨⟨100, 0⟩, ⟨0, 0⟩⟩],
    m_NearBoids := [2, 2, 0] }

/-- The positions and velocity `setCount` gives to the agent at index `i`. -/
def spawned (s : BoidSystem F) (draws : Nat → Draw F) (i : Nat) : Boid F :=
  ⟨⟨(draws i).px * s.m_Boundary.max.x, (draws i).py * s.m_Boundary.max.y⟩,
   (draws i).dir * ((draws i).speed * s.m_MaxSpeed)⟩

/-- A flock without agents whose boundary is `(0,50)-(100,100)`. -/
def emptyFlock (F : Type) [LinearOrderedField F] : BoidSystem F :=
  { m_Cohesion := 1, m_Separation := 1, m_Alignment := 1, m_ViewDistance := 10,
    m_MinSeparationDistance := 1, m_MaxSpeed := 60, m_BoundaryRepel := ⟨5, 5⟩,
    m_Boundary := ⟨⟨0, 50⟩, ⟨100, 100⟩⟩, m_Boids := [], m_NearBoids := [] }

/-- Random values inside `[0,1]`: `rand_float()` gives `0`, then `1/10`. -/
def lowDraw (F : Type) [LinearOrderedField F] : Draw F :=
  { px := 0, py := 1 / 10, dir := ⟨1, 0⟩, speed := 1 / 2 }

/-- A single agent at `(50,50)` with velocity `(30,40)` inside the boundary
`(0,0)-(100,100)`, with `m_MaxSpeed = 5`. -/
def solo (F : Type) [LinearOrderedField F] : BoidSystem F :=
  { m_Cohesion := 1, m_Separation := 1, m_Alignment := 1, m_ViewDistance := 10,
    m_MinSeparationDistance := 1, m_MaxSpeed := 5, m_BoundaryRepel := ⟨5, 5⟩,
    m_Boundary := square100 F, m_Boids := [⟨⟨50, 50⟩, ⟨30, 40⟩⟩], m_NearBoids := [] }

/-- The two-agent flock of the end-to-end scenario: agents at `(0,0)` and
`(10,0)`, both at rest, cohesion weight `1`, separation and alignment weights
`0`, view distance `20`; the remaining fields are parameters. -/
def pair (m ms : F) (bounds : Boundary2f F) (repel : Vec2f F) (near : List Nat) :
    BoidSystem F :=
  { m_Cohesion := 1, m_Separation := 0, m_Alignment := 0, m_ViewDistance := 20,
    m_MinSeparationDistance := m, m_MaxSpeed := ms, m_BoundaryRepel := repel,
    m_Boundary := bounds, m_Boids := [⟨⟨0, 0⟩, ⟨0, 0⟩⟩, ⟨⟨10, 0⟩, ⟨0, 0⟩⟩],
    m_NearBoids := near }

/-- The state `pair` is in after one tick of length `dt` (for `0 ≤ dt ≤ 2`,
`dt ≠ 1`). -/
def pairAfter (dt m ms : F) (bounds : Boundary2f F) (repel : Vec2f F) : BoidSystem F :=
  { m_Cohesion := 1, m_Separation := 0, m_Alignment := 0, m_ViewDistance := 20,
    m_MinSeparationDistance := m, m_MaxSpeed := ms, m_BoundaryRepel := repel,
    m_Boundary := bounds,
    m_Boids := [⟨⟨10 * dt, 0⟩, ⟨10, 0⟩⟩, ⟨⟨10 + (10 * dt - 10) * dt, 0⟩, ⟨10 * dt - 10, 0⟩⟩],
    m_NearBoids := [0] }

/-- A boundary that has the points `(0,0)` and `(10,0)` strictly inside. -/
def wideBounds (F : Type) [LinearOrderedField F] : Boundary2f F := ⟨⟨-100, -100⟩, ⟨100, 100⟩⟩

/-- The state `solo` is in after one tick of length `1`: the velocity is capped
to `(3,4)` and the agent has moved by it. -/
def soloAfter (F : Type) [LinearOrderedField F] : BoidSystem F :=
  { m_Cohesion := 1, m_Separation := 1, m_Alignment := 1, m_ViewDistance := 10,
    m_MinSeparationDistance := 1, m_MaxSpeed := 5, m_BoundaryRepel := ⟨5, 5⟩,
    m_Boundary := square100 F, m_Boids := [⟨⟨53, 54⟩, ⟨3, 4⟩⟩], m_NearBoids := [] }

end Fixtures

/-! ## Auxiliary facts about the primitives -/

section Lemmas

variable {F : Type} [LinearOrderedField F]

theorem Vec2f.add_mk (a b : Vec2f F) : a + b = ⟨a.x + b.x, a.y + b.y⟩ := rfl

theorem Vec2f.sub_mk (a b : Vec2f F) : a - b = ⟨a.x - b.x, a.y - b.y⟩ := rfl

theorem Vec2f.scale_mk (a : Vec2f F) (s : F) : a * s = ⟨a.x * s, a.y * s⟩ := rfl

theorem Vec2f.div_of_ne (a : Vec2f F) {s : F} (hs : s ≠ 0) :
    a.div s = some ⟨a.x / s, a.y / s⟩ := by
  simp [Vec2f.div, hs]

theorem fdiv_of_ne (a : F) {b : F} (hb : b ≠ 0) : fdiv a b = some (a / b) := by
  simp [fdiv, hb]

/-- The accumulation loops of `cohere` and `align` compute component sums. -/
theorem foldl_add_eq (g : Boid F → Vec2f F) (ns : List (Boid F)) (a : Vec2f F) :
    ns.foldl (fun acc n => acc + g n) a
      = ⟨a.x + (ns.map (fun n => (g n).x)).sum, a.y + (ns.map (fun n => (g n).y)).sum⟩ := by
  induction ns generalizing a with
  | nil => simp
  | cons n ns ih =>
    rw [List.foldl_cons, ih]
    simp [Vec2f.add_mk, add_assoc]

theorem length_cast_ne_zero {α : Type} {ns : List α} (h : ns ≠ []) :
    ((ns.length : Nat) : F) ≠ 0 := by
  have : ns.length ≠ 0 := by
    intro h0
    exact h (List.length_eq_zero.mp h0)
  exact_mod_cast this

theorem isEmpty_eq_false_of_ne {α : Type} {ns : List α} (h : ns ≠ []) :
    ns.isEmpty = false := by
  cases ns with
  | nil => exact absurd rfl h
  | cons a as => rfl

theorem separateStep_of_ne (p : Vec2f F) {m : F} (hm : m ≠ 0) (acc : Vec2f F) (n : Boid F)
    (hn : Vec2f.length2 (p - n.m_Position) ≠ 0) :
    Boid.separateStep p m acc n = some (acc + sepTerm p m n) := by
  have hmm : m * m ≠ 0 := mul_ne_zero hm hm
  have hd : Vec2f.length2 (p - n.m_Position) / (m * m) ≠ 0 := div_ne_zero hn hmm
  simp only [Boid.separateStep, Boid.getPosition, fdiv_of_ne _ hmm, Vec2f.div_of_ne _ hd,
    Option.bind_eq_bind, Option.some_bind, Option.pure_def]
  rfl

theorem separate_foldlM_eq (p : Vec2f F) {m : F} (hm : m ≠ 0) (ns : List (Boid F))
    (hns : ∀ n ∈ ns, Vec2f.length2 (p - n.m_Position) ≠ 0) (a : Vec2f F) :
    ns.foldlM (Boid.separateStep p m) a
      = some ⟨a.x + (ns.map (fun n => (sepTerm p m n).x)).sum,
              a.y + (ns.map (fun n => (sepTerm p m n).y)).sum⟩ := by
  induction ns generalizing a with
  | nil => simp
  | cons n ns ih =>
    have h1 := separateStep_of_ne p hm a n (hns n (List.mem_cons_self _ _))
    have h2 := ih (fun n' hn' => hns n' (List.mem_cons_of_mem _ hn')) (a + sepTerm p m n)
    rw [List.foldlM_cons, h1]
    simp only [Option.bind_eq_bind, Option.some_bind]
    rw [h2]
    simp [Vec2f.add_mk, add_assoc]

/-- The scan of `findNearBoids` appends, in order, the indices that pass the
two tests. -/
theorem foldl_findNearStep (vd : F) (i : Nat) (boid : Boid F) (es : List (Nat × Boid F))
    (acc : List Nat) :
    es.foldl (BoidSystem.findNearStep vd i boid) acc
      = acc ++ (es.filter (fun e => decide (e.1 ≠ i ∧
          Vec2f.length2 (boid.m_Position - e.2.m_Position) ≤ vd * vd))).map Prod.fst := by
  induction es generalizing acc with
  | nil => simp
  | cons e es ih =>
    rw [List.foldl_cons, ih]
    by_cases h1 : i = e.1
    · have h1b : ¬ e.1 ≠ i := fun h => h h1.symm
      simp [BoidSystem.findNearStep, h1, List.filter_cons]
    · have h1b : e.1 ≠ i := fun h => h1 h.symm
      by_cases h2 : Vec2f.length2 (boid.m_Position - e.2.m_Position) ≤ vd * vd
      · simp [BoidSystem.findNearStep, h1, h1b, h2, List.filter_cons, Boid.getPosition]
      · simp [BoidSystem.findNearStep, h1, h1b, h2, List.filter_cons, Boid.getPosition]

theorem foldl_setCountStep (draws : Nat → Draw F) (is : List Nat) (s : BoidSystem F) :
    is.foldl (BoidSystem.setCountStep draws) s
      = { s with m_Boids :=
            is.foldl (fun l i => List.modify (fun _ => spawned s draws i) i l) s.m_Boids } := by
  induction is generalizing s with
  | nil => rfl
  | cons i is ih =>
    rw [List.foldl_cons, ih]
    rfl

theorem length_foldl_modify {α : Type} (g : Nat → α) (is : List Nat) (l : List α) :
    (is.foldl (fun l i => List.modify (fun _ => g i) i l) l).length = l.length := by
  induction is generalizing l with
  | nil => rfl
  | cons i is ih => rw [List.foldl_cons, ih, List.length_modify]

theorem getElem?_foldl_modify_of_not_mem {α : Type} (g : Nat → α) (is : List Nat)
    (l : List α) (j : Nat) (hj : j ∉ is) :
    (is.foldl (fun l i => List.modify (fun _ => g i) i l) l)[j]? = l[j]? := by
  induction is generalizing l with
  | nil => rfl
  | cons i is ih =>
    have hji : i ≠ j := fun h => hj (h ▸ List.mem_cons_self _ _)
    rw [List.foldl_cons, ih _ (fun h => hj (List.mem_cons_of_mem _ h)),
      List.getElem?_modify_ne _ _ hji]

theorem getElem?_foldl_modify_of_mem {α : Type} (g : Nat → α) (is : List Nat)
    (l : List α) (j : Nat)
    (hj : j ∈ is ∨ ∀ b : α, l[j]? = some b → b = g j) :
    ∀ b : α, (is.foldl (fun l i => List.modify (fun _ => g i) i l) l)[j]? = some b →
      b = g j := by
  induction is generalizing l with
  | nil =>
    rcases hj with hj | hj
    · exact absurd hj (List.not_mem_nil _)
    · exact hj
  | cons i is ih =>
    rw [List.foldl_cons]
    by_cases hji : i = j
    · subst hji
      apply ih
      right
      intro b hb
      rw [List.getElem?_modify_eq] at hb
      cases h : l[i]? with
      | none => rw [h] at hb; cases hb
      | some c => rw [h] at hb; cases hb; rfl
    · apply ih
      rcases hj with hj | hj
      · left
        rcases List.mem_cons.mp hj with h | h
        · exact absurd h.symm hji
        · exact h
      · right
        intro b hb
        rw [List.getElem?_modify_ne _ _ hji] at hb
        exact hj b hb

theorem length_resize (l : List (Boid F)) (count : Nat) : (resize l count).length = count := by
  simp only [resize, List.length_append, List.length_take, List.length_replicate]
  omega

theorem getElem?_resize_of_lt (l : List (Boid F)) (count i : Nat) (hc : l.length ≤ count)
    (hi : i < l.length) : (resize l count)[i]? = l[i]? := by
  simp only [resize, List.take_of_length_le hc]
  rw [List.getElem?_append_left hi]

theorem findNearBoids_eq (s : BoidSystem F) (i : Nat) (bi : Boid F)
    (hi : s.m_Boids[i]? = some bi) :
    s.findNearBoids i = some { s with m_NearBoids := nearOf s i bi } := by
  simp only [BoidSystem.findNearBoids, hi, foldl_findNearStep, List.nil_append, nearOf]

theorem mem_nearOf (s : BoidSystem F) (i : Nat) (bi : Boid F) (j : Nat) :
    j ∈ nearOf s i bi ↔
      ∃ bj : Boid F, s.m_Boids[j]? = some bj ∧ j ≠ i ∧
        Vec2f.length2 (bi.m_Position - bj.m_Position)
          ≤ s.m_ViewDistance * s.m_ViewDistance := by
  simp only [nearOf, List.mem_map, List.mem_filter, decide_eq_true_eq, Prod.exists]
  constructor
  · rintro ⟨a, bj, ⟨hin, hne, hd⟩, rfl⟩
    exact ⟨bj, List.mk_mem_enum_iff_getElem?.mp hin, hne, hd⟩
  · rintro ⟨bj, hj, hne, hd⟩
    exact ⟨j, bj, ⟨List.mk_mem_enum_iff_getElem?.mpr hj, hne, hd⟩, rfl⟩

theorem not_mem_nearOf_self (s : BoidSystem F) (i : Nat) (bi : Boid F) :
    i ∉ nearOf s i bi := by
  intro hin
  obtain ⟨bj, _, hne, _⟩ := (mem_nearOf s i bi i).mp hin
  exact hne rfl

theorem pairwise_nearOf (s : BoidSystem F) (i : Nat) (bi : Boid F) :
    (nearOf s i bi).Pairwise (fun a b => a < b) := by
  have hsub : (nearOf s i bi).Sublist (s.m_Boids.enum.map Prod.fst) :=
    List.Sublist.map _ (List.filter_sublist _)
  rw [List.enum_map_fst] at hsub
  exact List.Pairwise.sublist hsub (List.pairwise_lt_range _)

/-! ### One loop iteration of `update` in closed form -/

omit [LinearOrderedField F] in
theorem modifyBoid_of_getElem? (s : BoidSystem F) (i : Nat) (f : Boid F → Option (Boid F))
    (b : Boid F) (hb : s.m_Boids[i]? = some b) :
    s.modifyBoid i f = (f b).map (put s i) := by
  simp only [BoidSystem.modifyBoid, hb]
  rfl

omit [LinearOrderedField F] in
theorem getElem?_put_self (s : BoidSystem F) (i : Nat) (b : Boid F)
    (hi : i < s.m_Boids.length) : (put s i b).m_Boids[i]? = some b := by
  simp [put, List.getElem?_set_self, hi]

omit [LinearOrderedField F] in
theorem put_put (s : BoidSystem F) (i : Nat) (b c : Boid F) :
    put (put s i b) i c = put s i c := by
  simp [put, List.set_set]

omit [LinearOrderedField F] in
theorem nearBoids_put (s : BoidSystem F) (i : Nat) (b : Boid F) (hi : i ∉ s.m_NearBoids) :
    (put s i b).nearBoids = s.nearBoids := by
  unfold BoidSystem.nearBoids put
  apply List.filterMap_congr
  intro j hj
  have hne : i ≠ j := fun h => hi (h ▸ hj)
  simp [List.getElem?_set_ne hne]

omit [LinearOrderedField F] in
theorem modifyBoid_put (s : BoidSystem F) (i : Nat) (f : Boid F → Option (Boid F))
    (b : Boid F) (hi : i < s.m_Boids.length) :
    (put s i b).modifyBoid i f = (f b).map (put s i) := by
  rw [modifyBoid_of_getElem? _ _ _ b (getElem?_put_self s i b hi)]
  cases f b with
  | none => rfl
  | some c => simp [put_put]

/-- One loop iteration of `update` on the agent `b` at index `i`: the scratch
list becomes `nearOf s i b`, and `b` is replaced by the result of `steer` on the
neighbours as they stand, followed by `Boid::update`. -/
theorem updateBoid_eq (sqrt : F → F) (dt : F) (s : BoidSystem F) (i : Nat) (b : Boid F)
    (hb : s.m_Boids[i]? = some b) :
    BoidSystem.updateBoid sqrt dt s i
      = (steer sqrt s (BoidSystem.nearBoids { s with m_NearBoids := nearOf s i b }) b).map
          (fun b5 => put { s with m_NearBoids := nearOf s i b } i (b5.update dt)) := by
  have hi : i < s.m_Boids.length := by
    rcases Nat.lt_or_ge i s.m_Boids.length with h | h
    · exact h
    · rw [List.getElem?_eq_none h] at hb; cases hb
  have hnot : i ∉ (BoidSystem.mk s.m_Cohesion s.m_Separation s.m_Alignment s.m_ViewDistance
      s.m_MinSeparationDistance s.m_MaxSpeed s.m_BoundaryRepel s.m_Boundary s.m_Boids
      (nearOf s i b)).m_NearBoids := not_mem_nearOf_self s i b
  generalize hs1 : (BoidSystem.mk s.m_Cohesion s.m_Separation s.m_Alignment s.m_ViewDistance
      s.m_MinSeparationDistance s.m_MaxSpeed s.m_BoundaryRepel s.m_Boundary s.m_Boids
      (nearOf s i b)) = s1 at hnot
  have hb1 : s1.m_Boids[i]? = some b := by rw [← hs1]; exact hb
  have hi1 : i < s1.m_Boids.length := by rw [← hs1]; exact hi
  have hp : steer sqrt s = steer sqrt s1 := by rw [← hs1]; rfl
  unfold BoidSystem.updateBoid
  rw [findNearBoids_eq s i b hb, hs1, hp]
  simp only [Option.bind_eq_bind, Option.some_bind]
  rw [modifyBoid_of_getElem? s1 i _ b hb1]
  unfold steer
  cases hc : Boid.cohere s1.m_Cohesion s1.nearBoids b with
  | none => rfl
  | some b1 =>
    simp only [Option.map_some', Option.some_bind]
    rw [modifyBoid_put s1 i _ b1 hi1, nearBoids_put s1 i b1 hnot]
    change (Option.map (put s1 i) (Boid.separate s1.m_Separation s1.m_MinSeparationDistance
      s1.nearBoids b1)).bind _ = _
    cases hsep : Boid.separate s1.m_Separation s1.m_MinSeparationDistance s1.nearBoids b1 with
    | none => rfl
    | some b2 =>
      simp only [Option.map_some', Option.some_bind]
      rw [modifyBoid_put s1 i _ b2 hi1, nearBoids_put s1 i b2 hnot]
      change (Option.map (put s1 i) (Boid.align s1.m_Alignment s1.nearBoids b2)).bind _ = _
      cases hal : Boid.align s1.m_Alignment s1.nearBoids b2 with
      | none => rfl
      | some b3 =>
        simp only [Option.map_some', Option.some_bind]
        rw [modifyBoid_put s1 i _ b3 hi1]
        simp only [Option.map_some', Option.some_bind]
        rw [modifyBoid_put s1 i _ _ hi1]
        change (Option.map (put s1 i) (Boid.constrainSpeed sqrt s1.m_MaxSpeed
          (b3.constrainBounds s1.m_Boundary s1.m_BoundaryRepel))).bind _ = _
        cases hcs : Boid.constrainSpeed sqrt s1.m_MaxSpeed
            (b3.constrainBounds s1.m_Boundary s1.m_BoundaryRepel) with
        | none => rfl
        | some b5 =>
          simp only [Option.map_some', Option.some_bind]
          rw [modifyBoid_put s1 i _ b5 hi1]
          rfl

/-! ### What the steps keep -/

theorem cohere_position (w : F) (ns : List (Boid F)) (b b1 : Boid F)
    (h : Boid.cohere w ns b = some b1) : b1.m_Position = b.m_Position := by
  unfold Boid.cohere at h
  split at h
  · cases h; rfl
  · simp only [Option.bind_eq_bind, Option.bind_eq_some, Option.pure_def, Option.some.injEq] at h
    obtain ⟨a, _, rfl⟩ := h
    rfl

theorem separate_position (w m : F) (ns : List (Boid F)) (b b1 : Boid F)
    (h : Boid.separate w m ns b = some b1) : b1.m_Position = b.m_Position := by
  unfold Boid.separate at h
  split at h
  · cases h; rfl
  · simp only [Option.bind_eq_bind, Option.bind_eq_some, Option.pure_def, Option.some.injEq] at h
    obtain ⟨a, _, rfl⟩ := h
    rfl

theorem align_position (w : F) (ns : List (Boid F)) (b b1 : Boid F)
    (h : Boid.align w ns b = some b1) : b1.m_Position = b.m_Position := by
  unfold Boid.align at h
  split at h
  · cases h; rfl
  · simp only [Option.bind_eq_bind, Option.bind_eq_some, Option.pure_def, Option.some.injEq] at h
    obtain ⟨a, _, rfl⟩ := h
    rfl

theorem constrainSpeed_position (sqrt : F → F) (ms : F) (b b1 : Boid F)
    (h : Boid.constrainSpeed sqrt ms b = some b1) : b1.m_Position = b.m_Position := by
  unfold Boid.constrainSpeed at h
  split at h
  · simp only [Option.bind_eq_bind, Option.bind_eq_some, Option.pure_def, Option.some.injEq] at h
    obtain ⟨a, _, rfl⟩ := h
    rfl
  · cases h; rfl

theorem steer_position (sqrt : F → F) (s : BoidSystem F) (ns : List (Boid F)) (b b5 : Boid F)
    (h : steer sqrt s ns b = some b5) : b5.m_Position = b.m_Position := by
  simp only [steer, Option.bind_eq_some] at h
  obtain ⟨b1, h1, b2, h2, b3, h3, h5⟩ := h
  rw [constrainSpeed_position _ _ _ _ h5]
  change b3.m_Position = _
  rw [align_position _ _ _ _ h3, separate_position _ _ _ _ _ h2, cohere_position _ _ _ _ h1]

/-- Every result of `steer` is a result of `constrainSpeed` at the state's
`m_MaxSpeed`. -/
theorem steer_constrainSpeed (sqrt : F → F) (s : BoidSystem F) (ns : List (Boid F))
    (b b5 : Boid F) (h : steer sqrt s ns b = some b5) :
    ∃ b4 : Boid F, Boid.constrainSpeed sqrt s.m_MaxSpeed b4 = some b5 := by
  simp only [steer, Option.bind_eq_some] at h
  obtain ⟨b1, _, b2, _, b3, _, h5⟩ := h
  exact ⟨_, h5⟩

/-- The value of `constrainSpeed` over the reals when the cap applies. -/
theorem constrainSpeed_of_ge (maxSpeed : ℝ) (b : Boid ℝ) (hpos : 0 < maxSpeed)
    (hge : Vec2f.length2 b.m_Velocity ≥ maxSpeed * maxSpeed) :
    Boid.constrainSpeed Real.sqrt maxSpeed b
        = some ⟨b.m_Position,
            b.m_Velocity * (maxSpeed / Real.sqrt (Vec2f.length2 b.m_Velocity))⟩ ∧
      Vec2f.length2 (b.m_Velocity * (maxSpeed / Real.sqrt (Vec2f.length2 b.m_Velocity)))
        = maxSpeed * maxSpeed := by
  have hL2 : 0 < Vec2f.length2 b.m_Velocity := lt_of_lt_of_le (mul_pos hpos hpos) hge
  have hL : 0 < Real.sqrt (Vec2f.length2 b.m_Velocity) := Real.sqrt_pos.mpr hL2
  have hsq : Real.sqrt (Vec2f.length2 b.m_Velocity) * Real.sqrt (Vec2f.length2 b.m_Velocity)
      = Vec2f.length2 b.m_Velocity := Real.mul_self_sqrt hL2.le
  constructor
  · simp only [Boid.constrainSpeed, Vec2f.normalize, Vec2f.length, hge, if_true,
      Vec2f.div_of_ne _ hL.ne', Option.bind_eq_bind, Option.some_bind, Option.pure_def,
      Vec2f.scale_mk]
    congr 3 <;> field_simp
  · have : Vec2f.length2 (b.m_Velocity * (maxSpeed / Real.sqrt (Vec2f.length2 b.m_Velocity)))
        = Vec2f.length2 b.m_Velocity * (maxSpeed * maxSpeed)
          / (Real.sqrt (Vec2f.length2 b.m_Velocity) * Real.sqrt (Vec2f.length2 b.m_Velocity)) := by
      simp only [Vec2f.length2, Vec2f.scale_mk]
      field_simp
      ring
    rw [this, hsq]
    field_simp

theorem constrainSpeed_length2_le (maxSpeed : ℝ) (b b1 : Boid ℝ) (hpos : 0 < maxSpeed)
    (h : Boid.constrainSpeed Real.sqrt maxSpeed b = some b1) :
    Vec2f.length2 b1.m_Velocity ≤ maxSpeed * maxSpeed := by
  by_cases hge : Vec2f.length2 b.m_Velocity ≥ maxSpeed * maxSpeed
  · obtain ⟨h1, h2⟩ := constrainSpeed_of_ge maxSpeed b hpos hge
    rw [h1] at h
    cases h
    exact h2.le
  · simp only [Boid.constrainSpeed, hge, if_false, Option.some.injEq] at h
    subst h
    exact (not_le.mp hge).le

/-! ### The loop of `update` -/

/-- Processing the indices `is` (distinct, in range) one after the other: the
parameters and the number of agents stay, agents outside `is` stay, and each
agent in `is` becomes `steer` of its old self, integrated. -/
theorem foldlM_updateBoid (sqrt : F → F) (dt : F) (is : List Nat) (hnd : is.Nodup)
    (s s2 : BoidSystem F) (hlt : ∀ i ∈ is, i < s.m_Boids.length)
    (h : is.foldlM (BoidSystem.updateBoid sqrt dt) s = some s2) :
    s2.m_Boids.length = s.m_Boids.length ∧ params s2 = params s ∧
    (∀ j : Nat, j ∉ is → s2.m_Boids[j]? = s.m_Boids[j]?) ∧
    (∀ j ∈ is, ∀ b : Boid F, s.m_Boids[j]? = some b →
      ∃ (ns : List (Boid F)) (b5 : Boid F), steer sqrt s ns b = some b5 ∧
        s2.m_Boids[j]? = some (b5.update dt)) := by
  induction is generalizing s with
  | nil =>
    simp only [List.foldlM_nil, Option.pure_def, Option.some.injEq] at h
    subst h
    exact ⟨rfl, rfl, fun _ _ => rfl, fun j hj => absurd hj (List.not_mem_nil _)⟩
  | cons i is ih =>
    have hi : i < s.m_Boids.length := hlt i (List.mem_cons_self _ _)
    have hb : s.m_Boids[i]? = some (s.m_Boids[i]) := List.getElem?_eq_getElem hi
    rw [List.foldlM_cons, updateBoid_eq sqrt dt s i _ hb] at h
    simp only [Option.bind_eq_bind, Option.bind_eq_some, Option.map_eq_some'] at h
    obtain ⟨s1, ⟨b5, hst, rfl⟩, h2⟩ := h
    have hnd2 : is.Nodup := (List.nodup_cons.mp hnd).2
    have hni : i ∉ is := (List.nodup_cons.mp hnd).1
    obtain ⟨hlen, hpar, hframe, hin⟩ := ih hnd2 _ (by
      intro k hk
      simp only [put, List.length_set]
      exact hlt k (List.mem_cons_of_mem _ hk)) h2
    refine ⟨?_, ?_, ?_, ?_⟩
    · rw [hlen]; simp [put]
    · rw [hpar]; rfl
    · intro j hj
      have hji : i ≠ j := fun e => hj (e ▸ List.mem_cons_self _ _)
      rw [hframe j (fun e => hj (List.mem_cons_of_mem _ e))]
      simp [put, List.getElem?_set_ne hji]
    · intro j hj b hjb
      rcases List.mem_cons.mp hj with e | e
      · subst e
        rw [hb] at hjb
        cases hjb
        refine ⟨_, b5, hst, ?_⟩
        rw [hframe j hni]
        exact getElem?_put_self _ j _ hi
      · have hji : i ≠ j := fun e2 => hni (e2 ▸ e)
        obtain ⟨ns, c5, hc, hres⟩ := hin j e b (by
          simp only [put, List.getElem?_set_ne hji]
          exact hjb)
        exact ⟨ns, c5, hc, hres⟩

theorem update_spec (sqrt : F → F) (dt : F) (s s2 : BoidSystem F)
    (h : BoidSystem.update sqrt dt s = some s2) :
    s2.m_Boids.length = s.m_Boids.length ∧ params s2 = params s ∧
    (∀ (j : Nat) (b : Boid F), s.m_Boids[j]? = some b →
      ∃ (ns : List (Boid F)) (b5 : Boid F), steer sqrt s ns b = some b5 ∧
        s2.m_Boids[j]? = some (b5.update dt)) := by
  obtain ⟨h1, h2, _, h4⟩ := foldlM_updateBoid sqrt dt (List.range s.m_Boids.length)
    (List.nodup_range _) s s2 (fun i hi => List.mem_range.mp hi) h
  refine ⟨h1, h2, fun j b hjb => h4 j ?_ b hjb⟩
  rw [List.mem_range]
  rcases Nat.lt_or_ge j s.m_Boids.length with hlt | hge
  · exact hlt
  · rw [List.getElem?_eq_none hge] at hjb; cases hjb

/-! ### Evaluating the steps in the simple cases -/

theorem cohere_single (w : F) (n b : Boid F) :
    Boid.cohere w [n] b
      = some ⟨b.m_Position, b.m_Velocity + (n.m_Position - b.m_Position) * w⟩ := by
  have h1 : ((1 : Nat) : F) ≠ 0 := by norm_num
  simp only [Boid.cohere, List.isEmpty_cons, Bool.false_eq_true, if_false, List.foldl_cons,
    List.foldl_nil, List.length_singleton, Vec2f.div_of_ne _ h1, Option.bind_eq_bind,
    Option.some_bind, Option.pure_def, Boid.getPosition, Vec2f.add_mk, Vec2f.sub_mk,
    Vec2f.scale_mk]
  simp

theorem separate_weight_zero (m : F) (hm : m ≠ 0) (ns : List (Boid F)) (b : Boid F)
    (hns : ∀ n ∈ ns, Vec2f.length2 (b.m_Position - n.m_Position) ≠ 0) :
    Boid.separate 0 m ns b = some b := by
  unfold Boid.separate
  rw [separate_foldlM_eq b.m_Position hm ns hns]
  cases ns <;> simp [Vec2f.add_mk, Vec2f.scale_mk]

theorem align_weight_zero (ns : List (Boid F)) (b : Boid F) :
    Boid.align 0 ns b = some b := by
  cases ns with
  | nil => rfl
  | cons n ns =>
    have hlen : (((n :: ns).length : Nat) : F) ≠ 0 := length_cast_ne_zero (List.cons_ne_nil _ _)
    simp only [Boid.align, List.isEmpty_cons, Bool.false_eq_true, if_false,
      Vec2f.div_of_ne _ hlen, Option.bind_eq_bind, Option.some_bind, Option.pure_def,
      Vec2f.add_mk, Vec2f.scale_mk, mul_zero, add_zero]

theorem constrainBounds_inside (bounds : Boundary2f F) (repel : Vec2f F) (b : Boid F)
    (hx1 : bounds.min.x ≤ b.m_Position.x) (hx2 : b.m_Position.x ≤ bounds.max.x)
    (hy1 : bounds.min.y ≤ b.m_Position.y) (hy2 : b.m_Position.y ≤ bounds.max.y) :
    b.constrainBounds bounds repel = b := by
  simp [Boid.constrainBounds, not_lt.mpr hx1, not_lt.mpr hx2, not_lt.mpr hy1, not_lt.mpr hy2]

theorem constrainSpeed_of_lt (sqrt : F → F) (ms : F) (b : Boid F)
    (h : Vec2f.length2 b.m_Velocity < ms * ms) :
    Boid.constrainSpeed sqrt ms b = some b := by
  simp [Boid.constrainSpeed, not_le.mpr h]

/-! ### The two-agent scenario -/

theorem updateBoid_pair_zero (sqrt : F → F) (dt m ms : F) (bounds : Boundary2f F)
    (repel : Vec2f F) (near : List Nat) (hm : m ≠ 0) (hms : 10 < ms)
    (hx1 : bounds.min.x < 0) (hx2 : 10 < bounds.max.x)
    (hy1 : bounds.min.y < 0) (hy2 : 0 < bounds.max.y) :
    BoidSystem.updateBoid sqrt dt (pair m ms bounds repel near) 0
      = some (put (pair m ms bounds repel [1]) 0 ⟨⟨10 * dt, 0⟩, ⟨10, 0⟩⟩) := by
  have hb : (pair m ms bounds repel near).m_Boids[0]? = some ⟨⟨0, 0⟩, ⟨0, 0⟩⟩ := rfl
  have hnear : nearOf (pair m ms bounds repel near) 0 ⟨⟨0, 0⟩, ⟨0, 0⟩⟩ = [1] := by
    norm_num [nearOf, pair, List.enum, List.enumFrom, List.filter, Vec2f.length2, Vec2f.sub_mk]
  rw [updateBoid_eq sqrt dt _ 0 _ hb, hnear]
  have hnb : BoidSystem.nearBoids { pair m ms bounds repel near with m_NearBoids := [1] }
      = [⟨⟨10, 0⟩, ⟨0, 0⟩⟩] := rfl
  rw [hnb]
  have hst : steer sqrt (pair m ms bounds repel near) [⟨⟨10, 0⟩, ⟨0, 0⟩⟩] ⟨⟨0, 0⟩, ⟨0, 0⟩⟩
      = some ⟨⟨0, 0⟩, ⟨10, 0⟩⟩ := by
    unfold steer
    have hc : Boid.cohere (pair m ms bounds repel near).m_Cohesion [⟨⟨10, 0⟩, ⟨0, 0⟩⟩]
        ⟨⟨0, 0⟩, ⟨0, 0⟩⟩ = some ⟨⟨0, 0⟩, ⟨10, 0⟩⟩ := by
      rw [cohere_single]
      simp [pair, Vec2f.add_mk, Vec2f.sub_mk, Vec2f.scale_mk]
    rw [hc, Option.some_bind]
    have hs : Boid.separate (pair m ms bounds repel near).m_Separation
        (pair m ms bounds repel near).m_MinSeparationDistance [⟨⟨10, 0⟩, ⟨0, 0⟩⟩]
        ⟨⟨0, 0⟩, ⟨10, 0⟩⟩ = some ⟨⟨0, 0⟩, ⟨10, 0⟩⟩ := by
      apply separate_weight_zero m hm
      intro n hn
      rw [List.mem_singleton.mp hn]
      norm_num [Vec2f.length2, Vec2f.sub_mk]
    rw [hs, Option.some_bind]
    have ha : Boid.align (pair m ms bounds repel near).m_Alignment [⟨⟨10, 0⟩, ⟨0, 0⟩⟩]
        ⟨⟨0, 0⟩, ⟨10, 0⟩⟩ = some ⟨⟨0, 0⟩, ⟨10, 0⟩⟩ := align_weight_zero _ _
    rw [ha, Option.some_bind]
    have hcb : Boid.constrainBounds (pair m ms bounds repel near).m_Boundary
        (pair m ms bounds repel near).m_BoundaryRepel ⟨⟨0, 0⟩, ⟨10, 0⟩⟩ = ⟨⟨0, 0⟩, ⟨10, 0⟩⟩ :=
      constrainBounds_inside _ _ _ hx1.le
        (le_trans (by norm_num : (0 : F) ≤ 10) hx2.le) hy1.le hy2.le
    rw [hcb]
    apply constrainSpeed_of_lt
    simp only [Vec2f.length2, pair]
    nlinarith
  rw [hst]
  simp [Boid.update, put, pair, Vec2f.add_mk, Vec2f.scale_mk]

theorem updateBoid_pair_one (sqrt : F → F) (dt m ms : F) (bounds : Boundary2f F)
    (repel : Vec2f F) (hm : m ≠ 0) (hms : 10 < ms)
    (hx1 : bounds.min.x < 0) (hx2 : 10 < bounds.max.x)
    (hy1 : bounds.min.y < 0) (hy2 : 0 < bounds.max.y)
    (hdt0 : 0 ≤ dt) (hdt2 : dt ≤ 2) (hdt1 : dt ≠ 1) :
    BoidSystem.updateBoid sqrt dt
        (put (pair m ms bounds repel [1]) 0 ⟨⟨10 * dt, 0⟩, ⟨10, 0⟩⟩) 1
      = some (pairAfter dt m ms bounds repel) := by
  have hb : (put (pair m ms bounds repel [1]) 0 ⟨⟨10 * dt, 0⟩, ⟨10, 0⟩⟩).m_Boids[1]?
      = some ⟨⟨10, 0⟩, ⟨0, 0⟩⟩ := rfl
  have hd : (10 - 10 * dt) * (10 - 10 * dt) ≤ (20 : F) * 20 := by nlinarith
  have hnear : nearOf (put (pair m ms bounds repel [1]) 0 ⟨⟨10 * dt, 0⟩, ⟨10, 0⟩⟩) 1
      ⟨⟨10, 0⟩, ⟨0, 0⟩⟩ = [0] := by
    simp [nearOf, put, pair, List.enum, List.enumFrom, List.filter, Vec2f.length2,
      Vec2f.sub_mk, hd]
  rw [updateBoid_eq sqrt dt _ 1 _ hb, hnear]
  have hnb : BoidSystem.nearBoids
      { put (pair m ms bounds repel [1]) 0 ⟨⟨10 * dt, 0⟩, ⟨10, 0⟩⟩ with m_NearBoids := [0] }
      = [⟨⟨10 * dt, 0⟩, ⟨10, 0⟩⟩] := rfl
  rw [hnb]
  have hst : steer sqrt (put (pair m ms bounds repel [1]) 0 ⟨⟨10 * dt, 0⟩, ⟨10, 0⟩⟩)
      [⟨⟨10 * dt, 0⟩, ⟨10, 0⟩⟩] ⟨⟨10, 0⟩, ⟨0, 0⟩⟩
      = some ⟨⟨10, 0⟩, ⟨10 * dt - 10, 0⟩⟩ := by
    unfold steer
    have hc : Boid.cohere (put (pair m ms bounds repel [1]) 0 ⟨⟨10 * dt, 0⟩, ⟨10, 0⟩⟩).m_Cohesion
        [⟨⟨10 * dt, 0⟩, ⟨10, 0⟩⟩] ⟨⟨10, 0⟩, ⟨0, 0⟩⟩ = some ⟨⟨10, 0⟩, ⟨10 * dt - 10, 0⟩⟩ := by
      rw [cohere_single]
      simp [put, pair, Vec2f.add_mk, Vec2f.sub_mk, Vec2f.scale_mk]
    rw [hc, Option.some_bind]
    have hs : Boid.separate (put (pair m ms bounds repel [1]) 0 ⟨⟨10 * dt, 0⟩, ⟨10, 0⟩⟩).m_Separation
        (put (pair m ms bounds repel [1]) 0 ⟨⟨10 * dt, 0⟩, ⟨10, 0⟩⟩).m_MinSeparationDistance
        [⟨⟨10 * dt, 0⟩, ⟨10, 0⟩⟩] ⟨⟨10, 0⟩, ⟨10 * dt - 10, 0⟩⟩
        = some ⟨⟨10, 0⟩, ⟨10 * dt - 10, 0⟩⟩ := by
      apply separate_weight_zero m hm
      intro n hn
      rw [List.mem_singleton.mp hn]
      have hne : (10 : F) - 10 * dt ≠ 0 := by
        intro h0
        apply hdt1
        linarith
      simp [Vec2f.length2, Vec2f.sub_mk, hne]
    rw [hs, Option.some_bind]
    have ha : Boid.align (put (pair m ms bounds repel [1]) 0 ⟨⟨10 * dt, 0⟩, ⟨10, 0⟩⟩).m_Alignment
        [⟨⟨10 * dt, 0⟩, ⟨10, 0⟩⟩] ⟨⟨10, 0⟩, ⟨10 * dt - 10, 0⟩⟩
        = some ⟨⟨10, 0⟩, ⟨10 * dt - 10, 0⟩⟩ := align_weight_zero _ _
    rw [ha, Option.some_bind]
    have hcb : Boid.constrainBounds
        (put (pair m ms bounds repel [1]) 0 ⟨⟨10 * dt, 0⟩, ⟨10, 0⟩⟩).m_Boundary
        (put (pair m ms bounds repel [1]) 0 ⟨⟨10 * dt, 0⟩, ⟨10, 0⟩⟩).m_BoundaryRepel
        ⟨⟨10, 0⟩, ⟨10 * dt - 10, 0⟩⟩ = ⟨⟨10, 0⟩, ⟨10 * dt - 10, 0⟩⟩ :=
      constrainBounds_inside _ _ _
        (le_trans hx1.le (by norm_num : (0 : F) ≤ 10)) hx2.le hy1.le hy2.le
    rw [hcb]
    apply constrainSpeed_of_lt
    simp only [Vec2f.length2, put, pair]
    nlinarith
  rw [hst]
  simp [Boid.update, put, pair, pairAfter, Vec2f.add_mk, Vec2f.scale_mk]

theorem update_pair (sqrt : F → F) (dt m ms : F) (bounds : Boundary2f F)
    (repel : Vec2f F) (near : List Nat) (hm : m ≠ 0) (hms : 10 < ms)
    (hx1 : bounds.min.x < 0) (hx2 : 10 < bounds.max.x)
    (hy1 : bounds.min.y < 0) (hy2 : 0 < bounds.max.y)
    (hdt0 : 0 ≤ dt) (hdt2 : dt ≤ 2) (hdt1 : dt ≠ 1) :
    BoidSystem.update sqrt dt (pair m ms bounds repel near)
      = some (pairAfter dt m ms bounds repel) := by
  have hlen : (pair m ms bounds repel near).m_Boids.length = 2 := rfl
  have hr : List.range 2 = [0, 1] := by decide
  unfold BoidSystem.update
  rw [hlen, hr, List.foldlM_cons,
    updateBoid_pair_zero sqrt dt m ms bounds repel near hm hms hx1 hx2 hy1 hy2]
  simp only [Option.bind_eq_bind, Option.some_bind]
  rw [List.foldlM_cons,
    updateBoid_pair_one sqrt dt m ms bounds repel hm hms hx1 hx2 hy1 hy2 hdt0 hdt2 hdt1]
  rfl

/-- The tick of `solo` over the reals: the cap applies, with `sqrt 2500 = 50`. -/
theorem update_solo : BoidSystem.update Real.sqrt 1 (solo ℝ) = some (soloAfter ℝ) := by
  have hb : (solo ℝ).m_Boids[0]? = some ⟨⟨50, 50⟩, ⟨30, 40⟩⟩ := rfl
  have hnear : nearOf (solo ℝ) 0 ⟨⟨50, 50⟩, ⟨30, 40⟩⟩ = [] := by
    simp [nearOf, solo, List.enum, List.enumFrom, List.filter]
  have hlen : (solo ℝ).m_Boids.length = 1 := rfl
  have hr : List.range 1 = [0] := by decide
  have hsq : Real.sqrt (Vec2f.length2 (⟨30, 40⟩ : Vec2f ℝ)) = 50 := by
    have h : Vec2f.length2 (⟨30, 40⟩ : Vec2f ℝ) = 50 * 50 := by norm_num [Vec2f.length2]
    rw [h]
    exact Real.sqrt_mul_self (by norm_num)
  have hst : steer Real.sqrt (solo ℝ) [] ⟨⟨50, 50⟩, ⟨30, 40⟩⟩ = some ⟨⟨50, 50⟩, ⟨3, 4⟩⟩ := by
    unfold steer
    have hc : Boid.cohere (solo ℝ).m_Cohesion [] (⟨⟨50, 50⟩, ⟨30, 40⟩⟩ : Boid ℝ)
        = some ⟨⟨50, 50⟩, ⟨30, 40⟩⟩ := rfl
    have hs : Boid.separate (solo ℝ).m_Separation (solo ℝ).m_MinSeparationDistance []
        (⟨⟨50, 50⟩, ⟨30, 40⟩⟩ : Boid ℝ) = some ⟨⟨50, 50⟩, ⟨30, 40⟩⟩ := rfl
    have ha : Boid.align (solo ℝ).m_Alignment [] (⟨⟨50, 50⟩, ⟨30, 40⟩⟩ : Boid ℝ)
        = some ⟨⟨50, 50⟩, ⟨30, 40⟩⟩ := rfl
    rw [hc, Option.some_bind, hs, Option.some_bind, ha, Option.some_bind]
    have hcb : Boid.constrainBounds (solo ℝ).m_Boundary (solo ℝ).m_BoundaryRepel
        (⟨⟨50, 50⟩, ⟨30, 40⟩⟩ : Boid ℝ) = ⟨⟨50, 50⟩, ⟨30, 40⟩⟩ := by
      apply constrainBounds_inside <;> norm_num [solo, square100]
    rw [hcb]
    have hge : Vec2f.length2 (⟨⟨50, 50⟩, ⟨30, 40⟩⟩ : Boid ℝ).m_Velocity
        ≥ (solo ℝ).m_MaxSpeed * (solo ℝ).m_MaxSpeed := by
      norm_num [Vec2f.length2, solo]
    rw [(constrainSpeed_of_ge (solo ℝ).m_MaxSpeed _ (by norm_num [solo]) hge).1, hsq]
    norm_num [solo, Vec2f.scale_mk]
  unfold BoidSystem.update
  rw [hlen, hr, List.foldlM_cons, updateBoid_eq Real.sqrt 1 (solo ℝ) 0 _ hb, hnear]
  have hnb : BoidSystem.nearBoids { solo ℝ with m_NearBoids := [] } = [] := rfl
  rw [hnb, hst]
  norm_num [Boid.update, put, solo, soloAfter, Vec2f.add_mk, Vec2f.scale_mk]

/-- In `trio` the first agent has its twin, at distance zero, in view: the
separation term divides zero by zero and the tick has no value. -/
theorem update_trio (sqrt : F → F) (dt : F) : BoidSystem.update sqrt dt (trio F) = none := by
  have hb : (trio F).m_Boids[0]? = some ⟨⟨0, 0⟩, ⟨1, 1⟩⟩ := rfl
  have hnear : nearOf (trio F) 0 ⟨⟨0, 0⟩, ⟨1, 1⟩⟩ = [1] := by
    norm_num [nearOf, trio, List.enum, List.enumFrom, List.filter, Vec2f.length2, Vec2f.sub_mk]
  have hsep : ∀ b1 : Boid F, b1.m_Position = ⟨0, 0⟩ →
      Boid.separate (trio F).m_Separation (trio F).m_MinSeparationDistance
        [⟨⟨0, 0⟩, ⟨1, 1⟩⟩] b1 = none := by
    intro b1 hb1
    simp [Boid.separate, Boid.separateStep, Boid.getPosition, hb1, trio, fdiv, Vec2f.div,
      Vec2f.length2, Vec2f.sub_mk]
  have hst : steer sqrt (trio F)
      (BoidSystem.nearBoids { trio F with m_NearBoids := nearOf (trio F) 0 ⟨⟨0, 0⟩, ⟨1, 1⟩⟩ })
      ⟨⟨0, 0⟩, ⟨1, 1⟩⟩ = none := by
    rw [hnear]
    have hnb : BoidSystem.nearBoids { trio F with m_NearBoids := [1] }
        = [⟨⟨0, 0⟩, ⟨1, 1⟩⟩] := rfl
    rw [hnb]
    unfold steer
    cases hc : Boid.cohere (trio F).m_Cohesion [⟨⟨0, 0⟩, ⟨1, 1⟩⟩] ⟨⟨0, 0⟩, ⟨1, 1⟩⟩ with
    | none => rfl
    | some b1 =>
      rw [Option.some_bind, hsep b1 (cohere_position _ _ _ _ hc)]
      rfl
  have hlen : (trio F).m_Boids.length = 3 := rfl
  unfold BoidSystem.update
  rw [hlen]
  have hr : List.range 3 = [0, 1, 2] := by decide
  rw [hr, List.foldlM_cons, updateBoid_eq sqrt dt (trio F) 0 _ hb, hst]
  rfl

end Lemmas

/-! ## The claims -/

section Claims

variable {F : Type} [LinearOrderedField F]

/-- C8: with an empty neighbour list, `cohere`, `separate` and `align` return the
agent as it was (position and velocity unchanged), for every weight and every
minimum separation distance, zero and negative values included. -/
theorem empty_neighbours_noop (w m : F) (b : Boid F) :
    Boid.cohere w [] b = some b ∧ Boid.separate w m [] b = some b ∧
      Boid.align w [] b = some b :=
  ⟨rfl, rfl, rfl⟩

/-- C7: for a non-empty neighbour list, `align` leaves the position alone and
sets the velocity to `v + w * mean`, where `mean` is the arithmetic mean of the
neighbours' velocities; the added term is the same whatever the agent's own
velocity is. -/
theorem align_adds_weighted_mean (w : F) (ns : List (Boid F)) (b : Boid F) (hne : ns ≠ []) :
    Boid.align w ns b
        = some ⟨b.m_Position,
            ⟨b.m_Velocity.x + w * ((ns.map (fun n => n.m_Velocity.x)).sum / (ns.length : F)),
             b.m_Velocity.y + w * ((ns.map (fun n => n.m_Velocity.y)).sum / (ns.length : F))⟩⟩
      ∧ ∀ b2 : Boid F, ∃ r r2 : Boid F,
          Boid.align w ns b = some r ∧ Boid.align w ns b2 = some r2 ∧
          r.m_Velocity - b.m_Velocity = r2.m_Velocity - b2.m_Velocity := by
  have key : ∀ c : Boid F, Boid.align w ns c
        = some ⟨c.m_Position,
            ⟨c.m_Velocity.x + w * ((ns.map (fun n => n.m_Velocity.x)).sum / (ns.length : F)),
             c.m_Velocity.y + w * ((ns.map (fun n => n.m_Velocity.y)).sum / (ns.length : F))⟩⟩ := by
    intro c
    have hlen : ((ns.length : Nat) : F) ≠ 0 := length_cast_ne_zero hne
    unfold Boid.align
    rw [foldl_add_eq Boid.getVelocity]
    simp [isEmpty_eq_false_of_ne hne, Boid.getVelocity, Vec2f.div_of_ne _ hlen, Vec2f.add_mk,
      Vec2f.scale_mk, mul_comm]
  refine ⟨key b, fun b2 => ⟨_, _, key b, key b2, ?_⟩⟩
  simp [Vec2f.sub_mk]

/-- Witness of C7: one neighbour with velocity `(4, 2)`, weight `1/2`. -/
theorem align_adds_weighted_mean_witness :
    ([⟨⟨0, 0⟩, ⟨4, 2⟩⟩] : List (Boid ℚ)) ≠ [] ∧
    Boid.align (1 / 2 : ℚ) [⟨⟨0, 0⟩, ⟨4, 2⟩⟩] ⟨⟨1, 1⟩, ⟨3, 3⟩⟩ = some ⟨⟨1, 1⟩, ⟨5, 4⟩⟩ := by
  refine ⟨by simp, ?_⟩
  rw [(align_adds_weighted_mean (1 / 2 : ℚ) [⟨⟨0, 0⟩, ⟨4, 2⟩⟩] ⟨⟨1, 1⟩, ⟨3, 3⟩⟩ (by simp)).1]
  norm_num

/-- C6: for `m ≠ 0` and a non-empty neighbour list whose members are all at
non-zero distance from the agent, `separate` leaves the position alone and sets
the velocity to `v + w * Σ (p - p_n) / (|p - p_n|² / m²)`; a neighbour with
`|p - p_n|² = m²` adds exactly the offset `p - p_n` to the running sum. -/
theorem separate_closed_form (w m : F) (ns : List (Boid F)) (b : Boid F)
    (hm : m ≠ 0) (hne : ns ≠ [])
    (hns : ∀ n ∈ ns, Vec2f.length2 (b.m_Position - n.m_Position) ≠ 0) :
    Boid.separate w m ns b
        = some ⟨b.m_Position,
            ⟨b.m_Velocity.x + w * (ns.map (fun n => (b.m_Position.x - n.m_Position.x)
                / (Vec2f.length2 (b.m_Position - n.m_Position) / (m * m)))).sum,
             b.m_Velocity.y + w * (ns.map (fun n => (b.m_Position.y - n.m_Position.y)
                / (Vec2f.length2 (b.m_Position - n.m_Position) / (m * m)))).sum⟩⟩
      ∧ ∀ n ∈ ns, Vec2f.length2 (b.m_Position - n.m_Position) = m * m →
          ∀ acc : Vec2f F,
            Boid.separateStep b.m_Position m acc n = some (acc + (b.m_Position - n.m_Position)) := by
  constructor
  · unfold Boid.separate
    rw [separate_foldlM_eq b.m_Position hm ns hns]
    simp [isEmpty_eq_false_of_ne hne, Vec2f.add_mk, Vec2f.scale_mk, sepTerm, mul_comm]
  · intro n hn hdist acc
    have hmm : m * m ≠ 0 := mul_ne_zero hm hm
    rw [separateStep_of_ne b.m_Position hm acc n (hns n hn)]
    simp only [sepTerm, hdist, div_self hmm, div_one]
    rfl

/-- Witness of C6: an agent at `(3,4)` and one neighbour at the origin, at
distance exactly `m = 5`. -/
theorem separate_closed_form_witness :
    (5 : ℚ) ≠ 0 ∧ ([⟨⟨0, 0⟩, ⟨0, 0⟩⟩] : List (Boid ℚ)) ≠ [] ∧
    Boid.separate (2 : ℚ) 5 [⟨⟨0, 0⟩, ⟨0, 0⟩⟩] ⟨⟨3, 4⟩, ⟨1, 1⟩⟩ = some ⟨⟨3, 4⟩, ⟨7, 9⟩⟩ := by
  refine ⟨by norm_num, by simp, ?_⟩
  rw [(separate_closed_form (2 : ℚ) 5 [⟨⟨0, 0⟩, ⟨0, 0⟩⟩] ⟨⟨3, 4⟩, ⟨1, 1⟩⟩ (by norm_num) (by simp)
    (by norm_num [Vec2f.length2, Vec2f.sub_mk])).1]
  norm_num [Vec2f.length2, Vec2f.sub_mk]

/-- C3: over the reals, for `maxSpeed > 0` and a velocity `v` with
`length2 v ≥ maxSpeed²`, `constrainSpeed` returns an agent whose velocity has
length exactly `maxSpeed` and equals `v` scaled by a positive factor; the
position is unchanged. -/
theorem constrainSpeed_exact_cap (maxSpeed : ℝ) (b : Boid ℝ) (hpos : 0 < maxSpeed)
    (hge : Vec2f.length2 b.m_Velocity ≥ maxSpeed * maxSpeed) :
    ∃ b2 : Boid ℝ, Boid.constrainSpeed Real.sqrt maxSpeed b = some b2 ∧
      Vec2f.length Real.sqrt b2.m_Velocity = maxSpeed ∧
      (∃ c : ℝ, 0 < c ∧ b2.m_Velocity = b.m_Velocity * c) ∧
      b2.m_Position = b.m_Position := by
  have hL2 : 0 < Vec2f.length2 b.m_Velocity := lt_of_lt_of_le (mul_pos hpos hpos) hge
  have hL : 0 < Real.sqrt (Vec2f.length2 b.m_Velocity) := Real.sqrt_pos.mpr hL2
  obtain ⟨h1, h2⟩ := constrainSpeed_of_ge maxSpeed b hpos hge
  refine ⟨_, h1, ?_, ⟨_, div_pos hpos hL, rfl⟩, rfl⟩
  simp only [Vec2f.length]
  rw [h2]
  exact Real.sqrt_mul_self hpos.le

/-- Witness of C3: velocity `(3,4)` with `maxSpeed = 5`. -/
theorem constrainSpeed_exact_cap_witness :
    (0 : ℝ) < 5 ∧ Vec2f.length2 (⟨3, 4⟩ : Vec2f ℝ) ≥ 5 * 5 ∧
    ∃ b2 : Boid ℝ, Boid.constrainSpeed Real.sqrt 5 ⟨⟨1, 2⟩, ⟨3, 4⟩⟩ = some b2 ∧
      Vec2f.length Real.sqrt b2.m_Velocity = 5 ∧
      (∃ c : ℝ, 0 < c ∧ b2.m_Velocity = (⟨3, 4⟩ : Vec2f ℝ) * c) ∧
      b2.m_Position = ⟨1, 2⟩ :=
  ⟨by norm_num, by norm_num [Vec2f.length2],
    constrainSpeed_exact_cap 5 ⟨⟨1, 2⟩, ⟨3, 4⟩⟩ (by norm_num) (by norm_num [Vec2f.length2])⟩

/-- C2 (as stated, refuted): an agent at the corner `(0,0)` of the boundary
`(0,0)-(100,100)`, with velocity `(0,0)` and repel `(5,5)`, keeps the velocity
`(0,0)`; it does not end with `(5,5)`. -/
theorem constrainBounds_at_min_corner :
    (Boid.constrainBounds (square100 ℚ) ⟨5, 5⟩ (cornerBoid ℚ)).m_Velocity = ⟨0, 0⟩ ∧
    (Boid.constrainBounds (square100 ℚ) ⟨5, 5⟩ (cornerBoid ℚ)).m_Velocity ≠ ⟨5, 5⟩ := by
  constructor
  · simp [Boid.constrainBounds, square100, cornerBoid]
  · norm_num [Boid.constrainBounds, square100, cornerBoid]

/-- C2 (amended): with `min ≤ max` on both axes, `constrainBounds` treats each
axis on its own: strictly below `min` the velocity component grows by the repel
component, strictly above `max` it shrinks by it, and anywhere in the closed
range `min ≤ p ≤ max` (the two edges included) it is unchanged; the position is
never changed. -/
theorem constrainBounds_per_axis (bounds : Boundary2f F) (repel : Vec2f F) (b : Boid F)
    (hx : bounds.min.x ≤ bounds.max.x) (hy : bounds.min.y ≤ bounds.max.y) :
    (b.m_Position.x < bounds.min.x →
        (b.constrainBounds bounds repel).m_Velocity.x = b.m_Velocity.x + repel.x) ∧
    (bounds.max.x < b.m_Position.x →
        (b.constrainBounds bounds repel).m_Velocity.x = b.m_Velocity.x - repel.x) ∧
    (bounds.min.x ≤ b.m_Position.x → b.m_Position.x ≤ bounds.max.x →
        (b.constrainBounds bounds repel).m_Velocity.x = b.m_Velocity.x) ∧
    (b.m_Position.y < bounds.min.y →
        (b.constrainBounds bounds repel).m_Velocity.y = b.m_Velocity.y + repel.y) ∧
    (bounds.max.y < b.m_Position.y →
        (b.constrainBounds bounds repel).m_Velocity.y = b.m_Velocity.y - repel.y) ∧
    (bounds.min.y ≤ b.m_Position.y → b.m_Position.y ≤ bounds.max.y →
        (b.constrainBounds bounds repel).m_Velocity.y = b.m_Velocity.y) ∧
    (b.constrainBounds bounds repel).m_Position = b.m_Position := by
  refine ⟨fun h => ?_, fun h => ?_, fun h1 h2 => ?_, fun h => ?_, fun h => ?_,
    fun h1 h2 => ?_, rfl⟩
  · simp [Boid.constrainBounds, h]
  · have h1 : ¬ b.m_Position.x < bounds.min.x := not_lt.mpr (le_trans hx h.le)
    simp [Boid.constrainBounds, h, h1]
  · simp [Boid.constrainBounds, not_lt.mpr h1, not_lt.mpr h2]
  · simp [Boid.constrainBounds, h]
  · have h1 : ¬ b.m_Position.y < bounds.min.y := not_lt.mpr (le_trans hy h.le)
    simp [Boid.constrainBounds, h, h1]
  · simp [Boid.constrainBounds, not_lt.mpr h1, not_lt.mpr h2]

/-- Witness of C2 (amended): the corner agent inside `(0,0)-(100,100)`. -/
theorem constrainBounds_per_axis_witness :
    (square100 ℚ).min.x ≤ (square100 ℚ).max.x ∧ (square100 ℚ).min.y ≤ (square100 ℚ).max.y ∧
    ((square100 ℚ).min.x ≤ (cornerBoid ℚ).m_Position.x →
      (cornerBoid ℚ).m_Position.x ≤ (square100 ℚ).max.x →
      ((cornerBoid ℚ).constrainBounds (square100 ℚ) ⟨5, 5⟩).m_Velocity.x
        = (cornerBoid ℚ).m_Velocity.x) :=
  ⟨by norm_num [square100], by norm_num [square100],
    (constrainBounds_per_axis (square100 ℚ) ⟨5, 5⟩ (cornerBoid ℚ)
      (by norm_num [square100]) (by norm_num [square100])).2.2.1⟩

/-- C1: `findNearBoids` on the agent at index `i` returns, leaves the agents
alone and leaves in `m_NearBoids` the indices `j ≠ i` of the agents whose
squared distance to agent `i` is at most `viewDistance²`, in strictly
increasing order (so each once); `i` itself is never listed, and any other
agent equal to agent `i` in position and velocity is listed. -/
theorem findNearBoids_exact (s : BoidSystem F) (i : Nat) (bi : Boid F)
    (hi : s.m_Boids[i]? = some bi) :
    ∃ s2 : BoidSystem F, s.findNearBoids i = some s2 ∧ s2.m_Boids = s.m_Boids ∧
      s2.m_NearBoids = (s.m_Boids.enum.filter (fun e => decide (e.1 ≠ i ∧
          Vec2f.length2 (bi.m_Position - e.2.m_Position)
            ≤ s.m_ViewDistance * s.m_ViewDistance))).map Prod.fst ∧
      (∀ j : Nat, j ∈ s2.m_NearBoids ↔
        ∃ bj : Boid F, s.m_Boids[j]? = some bj ∧ j ≠ i ∧
          Vec2f.length2 (bi.m_Position - bj.m_Position)
            ≤ s.m_ViewDistance * s.m_ViewDistance) ∧
      s2.m_NearBoids.Pairwise (fun a b => a < b) ∧
      i ∉ s2.m_NearBoids ∧
      (∀ j : Nat, j ≠ i → s.m_Boids[j]? = some bi → j ∈ s2.m_NearBoids) := by
  refine ⟨{ s with m_NearBoids := nearOf s i bi }, findNearBoids_eq s i bi hi, rfl, rfl,
    mem_nearOf s i bi, pairwise_nearOf s i bi, not_mem_nearOf_self s i bi, ?_⟩
  intro j hne hj
  refine (mem_nearOf s i bi j).mpr ⟨bi, hj, hne, ?_⟩
  have h0 : Vec2f.length2 (bi.m_Position - bi.m_Position) = 0 := by
    simp [Vec2f.length2, Vec2f.sub_mk]
  rw [h0]
  exact mul_self_nonneg _

/-- Witness of C1: in `trio`, whose scratch list holds stale entries, the query
for agent `0` leaves exactly `[1]`: its identical twin is listed, the agent
itself and the far agent are not. -/
theorem findNearBoids_exact_witness :
    (trio ℚ).m_Boids[0]? = some ⟨⟨0, 0⟩, ⟨1, 1⟩⟩ ∧
    ((trio ℚ).findNearBoids 0).map (fun s => s.m_NearBoids) = some [1] := by
  refine ⟨rfl, ?_⟩
  obtain ⟨s2, h1, _, h3, _⟩ := findNearBoids_exact (trio ℚ) 0 ⟨⟨0, 0⟩, ⟨1, 1⟩⟩ rfl
  rw [h1, Option.map_some', h3]
  norm_num [trio, List.enum, List.enumFrom, List.filter, Vec2f.length2, Vec2f.sub_mk]

/-- C5 (as stated, refuted): growing `emptyFlock`, whose boundary is
`(0,50)-(100,100)`, by one agent with the draws `0` and `1/10` (both inside
`[0,1]`) places the agent at `(0,10)`: on the edge `x = min.x` and below
`min.y`, so not strictly inside the boundary. -/
theorem setCount_new_agent_not_inside :
    (emptyFlock ℚ).m_Boids.length ≤ 1 ∧
    (0 ≤ (lowDraw ℚ).px ∧ (lowDraw ℚ).px ≤ 1 ∧ 0 ≤ (lowDraw ℚ).py ∧ (lowDraw ℚ).py ≤ 1) ∧
    ((emptyFlock ℚ).setCount 1 (fun _ => lowDraw ℚ)).m_Boids.map (fun b => b.m_Position)
      = [⟨0, 10⟩] ∧
    ¬ ((emptyFlock ℚ).m_Boundary.min.x < 0) ∧ ¬ ((emptyFlock ℚ).m_Boundary.min.y < 10) := by
  refine ⟨by simp [emptyFlock], by norm_num [lowDraw], ?_, by simp [emptyFlock],
    by norm_num [emptyFlock]⟩
  simp only [BoidSystem.setCount, resize, emptyFlock, List.length_nil, List.take_nil,
    List.nil_append, List.replicate, List.length_cons, List.range', List.foldl_cons,
    List.foldl_nil, BoidSystem.setCountStep, List.modify, List.modifyTailIdx,
    List.modifyHead, List.map_cons, List.map_nil, Boid.setPosition, Boid.setVelocity,
    lowDraw]
  norm_num

/-- C5 (amended): for a boundary with `min ≤ 0 ≤ max` on both axes, `count` at
least the current number of agents and draws in `[0,1]`, `setCount` leaves
`count` agents, keeps every old agent as it was, and gives every new agent the
position `(r_x * max.x, r_y * max.y)`, which lies in the closed boundary
rectangle, edges included. -/
theorem setCount_grow (s : BoidSystem F) (count : Nat) (draws : Nat → Draw F)
    (hcount : s.m_Boids.length ≤ count)
    (hminx : s.m_Boundary.min.x ≤ 0) (hminy : s.m_Boundary.min.y ≤ 0)
    (hmaxx : 0 ≤ s.m_Boundary.max.x) (hmaxy : 0 ≤ s.m_Boundary.max.y)
    (hdraws : ∀ i : Nat, 0 ≤ (draws i).px ∧ (draws i).px ≤ 1 ∧
      0 ≤ (draws i).py ∧ (draws i).py ≤ 1) :
    (s.setCount count draws).m_Boids.length = count ∧
    (∀ i : Nat, i < s.m_Boids.length →
      (s.setCount count draws).m_Boids[i]? = s.m_Boids[i]?) ∧
    (∀ i : Nat, s.m_Boids.length ≤ i → i < count →
      ∃ b : Boid F, (s.setCount count draws).m_Boids[i]? = some b ∧
        b.m_Position = ⟨(draws i).px * s.m_Boundary.max.x, (draws i).py * s.m_Boundary.max.y⟩ ∧
        s.m_Boundary.min.x ≤ b.m_Position.x ∧ b.m_Position.x ≤ s.m_Boundary.max.x ∧
        s.m_Boundary.min.y ≤ b.m_Position.y ∧ b.m_Position.y ≤ s.m_Boundary.max.y) := by
  have hform : (s.setCount count draws).m_Boids
      = (List.range' s.m_Boids.length (count - s.m_Boids.length)).foldl
          (fun l i => List.modify (fun _ => spawned s draws i) i l) (resize s.m_Boids count) := by
    simp only [BoidSystem.setCount, foldl_setCountStep, length_resize]
    rfl
  have hlen : (s.setCount count draws).m_Boids.length = count := by
    rw [hform, length_foldl_modify, length_resize]
  refine ⟨hlen, ?_, ?_⟩
  · intro i hi
    rw [hform, getElem?_foldl_modify_of_not_mem _ _ _ _ (by
      intro hmem
      have := (List.mem_range'_1.mp hmem).1
      omega)]
    exact getElem?_resize_of_lt _ _ _ hcount hi
  · intro i hlo hhi
    have hsome : ∃ b : Boid F, (s.setCount count draws).m_Boids[i]? = some b := by
      have hlt : i < (s.setCount count draws).m_Boids.length := by rw [hlen]; exact hhi
      exact ⟨_, List.getElem?_eq_getElem hlt⟩
    obtain ⟨b, hb⟩ := hsome
    have hb2 := hb
    rw [hform] at hb2
    have hmemi : i ∈ List.range' s.m_Boids.length (count - s.m_Boids.length) := by
      rw [List.mem_range'_1]
      omega
    have hbeq : b = spawned s draws i :=
      getElem?_foldl_modify_of_mem (spawned s draws) _ _ i (Or.inl hmemi) b hb2
    obtain ⟨hx0, hx1, hy0, hy1⟩ := hdraws i
    refine ⟨b, hb, ?_, ?_, ?_, ?_, ?_⟩
    · rw [hbeq]; rfl
    · rw [hbeq]
      exact le_trans hminx (mul_nonneg hx0 hmaxx)
    · rw [hbeq]
      exact mul_le_of_le_one_left hmaxx hx1
    · rw [hbeq]
      exact le_trans hminy (mul_nonneg hy0 hmaxy)
    · rw [hbeq]
      exact mul_le_of_le_one_left hmaxy hy1

/-- Witness of C5 (amended): `trio`, whose boundary is `(0,0)-(100,100)`, grown
from three to five agents with the draws of `lowDraw`. -/
theorem setCount_grow_witness :
    (trio ℚ).m_Boids.length ≤ 5 ∧ (trio ℚ).m_Boundary.min.x ≤ 0 ∧
    0 ≤ (trio ℚ).m_Boundary.max.x ∧
    ((trio ℚ).setCount 5 (fun _ => lowDraw ℚ)).m_Boids.length = 5 :=
  ⟨by simp [trio], by simp [trio, square100], by simp [trio, square100],
    (setCount_grow (trio ℚ) 5 (fun _ => lowDraw ℚ) (by simp [trio])
      (by simp [trio, square100]) (by simp [trio, square100])
      (by simp [trio, square100]) (by simp [trio, square100])
      (fun _ => by norm_num [lowDraw])).1⟩

/-- C9 (as stated, refuted): on `trio`, where two agents coincide, the tick with
`dt = 0` has no value (the separation term is `0/0`; the float code leaves NaN
in the velocity and, through `position + velocity * 0`, in the position), so
the positions are not "unchanged". -/
theorem update_dt_zero_degenerate :
    BoidSystem.update (fun x => x) (0 : ℚ) (trio ℚ) = none ∧
    ¬ ∃ s2 : BoidSystem ℚ, BoidSystem.update (fun x => x) (0 : ℚ) (trio ℚ) = some s2 ∧
        s2.m_Boids.map (fun b => b.m_Position) = (trio ℚ).m_Boids.map (fun b => b.m_Position) := by
  have h := update_trio (fun x : ℚ => x) 0
  refine ⟨h, ?_⟩
  rintro ⟨s2, h2, _⟩
  rw [h] at h2
  cases h2

/-- C9 (amended): whenever the tick has a value (no step divides by zero), the
number of agents is kept and each agent ends with the velocity `steer` gives it
(`cohere`, `separate`, `align`, `constrainBounds`, `constrainSpeed` in that
order) and with the position `old position + final velocity * dt`, hence with
its old position when `dt = 0`; and one loop iteration for index `i` changes no
agent at another index. -/
theorem update_integrates_final_velocity (sqrt : F → F) (dt : F) (s s2 : BoidSystem F)
    (h : BoidSystem.update sqrt dt s = some s2) :
    s2.m_Boids.length = s.m_Boids.length ∧
    (∀ (i : Nat) (b : Boid F), s.m_Boids[i]? = some b →
      ∃ (b2 : Boid F) (ns : List (Boid F)) (b5 : Boid F),
        s2.m_Boids[i]? = some b2 ∧ steer sqrt s ns b = some b5 ∧
        b2.m_Velocity = b5.m_Velocity ∧
        b2.m_Position = b.m_Position + b2.m_Velocity * dt ∧
        (dt = 0 → b2.m_Position = b.m_Position)) ∧
    (∀ (s1 s3 : BoidSystem F) (i : Nat), BoidSystem.updateBoid sqrt dt s1 i = some s3 →
      ∀ j : Nat, j ≠ i → s3.m_Boids[j]? = s1.m_Boids[j]?) := by
  obtain ⟨hlen, _, hall⟩ := update_spec sqrt dt s s2 h
  refine ⟨hlen, ?_, ?_⟩
  · intro i b hb
    obtain ⟨ns, b5, hst, hres⟩ := hall i b hb
    have hpos : b5.m_Position = b.m_Position := steer_position sqrt s ns b b5 hst
    refine ⟨b5.update dt, ns, b5, hres, hst, rfl, ?_, ?_⟩
    · simp only [Boid.update, hpos]
    · intro h0
      subst h0
      simp only [Boid.update, hpos, Vec2f.add_mk, Vec2f.scale_mk, mul_zero, add_zero]
  · intro s1 s3 i hstep j hji
    rcases Nat.lt_or_ge i s1.m_Boids.length with hlt | hge
    · have hfold : [i].foldlM (BoidSystem.updateBoid sqrt dt) s1 = some s3 := by
        rw [List.foldlM_cons, hstep]
        rfl
      obtain ⟨_, _, hframe, _⟩ := foldlM_updateBoid sqrt dt [i] (List.nodup_singleton i) s1 s3
        (by
          intro k hk
          rw [List.mem_singleton.mp hk]
          exact hlt) hfold
      exact hframe j (by
        intro hk
        exact hji (List.mem_singleton.mp hk))
    · have hnone : BoidSystem.updateBoid sqrt dt s1 i = none := by
        simp [BoidSystem.updateBoid, BoidSystem.findNearBoids, List.getElem?_eq_none hge]
      rw [hnone] at hstep
      cases hstep

/-- Witness of C9 (amended): the two-agent flock ticked by `dt = 1/2`. -/
theorem update_integrates_final_velocity_witness :
    BoidSystem.update (fun x => x) (1 / 2 : ℚ) (pair 1 20 (wideBounds ℚ) ⟨5, 5⟩ [])
      = some (pairAfter (1 / 2) 1 20 (wideBounds ℚ) ⟨5, 5⟩) ∧
    (pairAfter (1 / 2 : ℚ) 1 20 (wideBounds ℚ) ⟨5, 5⟩).m_Boids.length
      = (pair (1 : ℚ) 20 (wideBounds ℚ) ⟨5, 5⟩ []).m_Boids.length :=
  have h : BoidSystem.update (fun x => x) (1 / 2 : ℚ) (pair 1 20 (wideBounds ℚ) ⟨5, 5⟩ [])
      = some (pairAfter (1 / 2) 1 20 (wideBounds ℚ) ⟨5, 5⟩) :=
    update_pair _ _ _ _ _ _ _ (by norm_num) (by norm_num) (by norm_num [wideBounds])
      (by norm_num [wideBounds]) (by norm_num [wideBounds]) (by norm_num [wideBounds])
      (by norm_num) (by norm_num) (by norm_num)
  ⟨h, (update_integrates_final_velocity _ _ _ _ h).1⟩

/-- C10 (as stated, refuted): on `trio`, with `m_MaxSpeed = 50 > 0`, the tick
has no value over the reals (the separation term of the first agent is `0/0`;
the float code leaves a NaN velocity, which is not within the cap). -/
theorem degenerate_tick_escapes_cap :
    0 < (trio ℝ).m_MaxSpeed ∧ BoidSystem.update Real.sqrt 1 (trio ℝ) = none :=
  ⟨by norm_num [trio], update_trio Real.sqrt 1⟩

/-- C10 (amended): over the reals with `m_MaxSpeed > 0`, whenever the tick has a
value (no step divides by zero), every agent ends with
`length2 velocity ≤ m_MaxSpeed²`, however large the accumulated contributions
were, and the number of agents is unchanged. -/
theorem update_speed_cap (dt : ℝ) (s s2 : BoidSystem ℝ) (hms : 0 < s.m_MaxSpeed)
    (h : BoidSystem.update Real.sqrt dt s = some s2) :
    (∀ b ∈ s2.m_Boids, Vec2f.length2 b.m_Velocity ≤ s.m_MaxSpeed * s.m_MaxSpeed) ∧
    s2.m_Boids.length = s.m_Boids.length := by
  obtain ⟨hlen, _, hall⟩ := update_spec Real.sqrt dt s s2 h
  refine ⟨?_, hlen⟩
  intro b hmem
  obtain ⟨j, hj⟩ := List.mem_iff_getElem?.mp hmem
  have hjlt : j < s.m_Boids.length := by
    rcases Nat.lt_or_ge j s2.m_Boids.length with hlt | hge
    · rw [← hlen]; exact hlt
    · rw [List.getElem?_eq_none hge] at hj; cases hj
  obtain ⟨ns, b5, hst, hres⟩ := hall j _ (List.getElem?_eq_getElem hjlt)
  rw [hres] at hj
  cases hj
  obtain ⟨b4, h4⟩ := steer_constrainSpeed Real.sqrt s ns _ b5 hst
  exact constrainSpeed_length2_le s.m_MaxSpeed b4 b5 hms h4

/-- Witness of C10 (amended): `solo`, whose velocity `(30,40)` exceeds the cap
`5`, ticked by `dt = 1`. -/
theorem update_speed_cap_witness :
    0 < (solo ℝ).m_MaxSpeed ∧
    BoidSystem.update Real.sqrt 1 (solo ℝ) = some (soloAfter ℝ) ∧
    (∀ b ∈ (soloAfter ℝ).m_Boids,
      Vec2f.length2 b.m_Velocity ≤ (solo ℝ).m_MaxSpeed * (solo ℝ).m_MaxSpeed) :=
  ⟨by norm_num [solo], update_solo,
    (update_speed_cap 1 (solo ℝ) (soloAfter ℝ) (by norm_num [solo]) update_solo).1⟩

/-- C4 (as stated, refuted): the two-agent flock with minimum separation
distance `1 > 0`, `m_MaxSpeed = 20 > 10` and both agents strictly inside the
boundary, ticked by `dt = 1/2 ≥ 0`: agent 0 ends with velocity `(10,0)` but
agent 1, which sees agent 0 already moved to `(5,0)`, ends with `(-5,0)`, not
`(-10,0)`. -/
theorem update_pair_half :
    (BoidSystem.update (fun x => x) (1 / 2 : ℚ) (pair 1 20 (wideBounds ℚ) ⟨5, 5⟩ [])).map
        (fun s => s.m_Boids.map (fun b => b.m_Velocity)) = some [⟨10, 0⟩, ⟨-5, 0⟩] ∧
    (BoidSystem.update (fun x => x) (1 / 2 : ℚ) (pair 1 20 (wideBounds ℚ) ⟨5, 5⟩ [])).map
        (fun s => s.m_Boids.map (fun b => b.m_Velocity)) ≠ some [⟨10, 0⟩, ⟨-10, 0⟩] := by
  have h : BoidSystem.update (fun x => x) (1 / 2 : ℚ) (pair 1 20 (wideBounds ℚ) ⟨5, 5⟩ [])
      = some (pairAfter (1 / 2) 1 20 (wideBounds ℚ) ⟨5, 5⟩) :=
    update_pair _ _ _ _ _ _ _ (by norm_num) (by norm_num) (by norm_num [wideBounds])
      (by norm_num [wideBounds]) (by norm_num [wideBounds]) (by norm_num [wideBounds])
      (by norm_num) (by norm_num) (by norm_num)
  rw [h]
  constructor
  · norm_num [pairAfter]
  · norm_num [pairAfter]

/-- C4 (amended): for the two-agent flock (agents at `(0,0)` and `(10,0)` at
rest, cohesion `1`, separation and alignment `0`, view distance `20`, minimum
separation distance `> 0`, both agents strictly inside the boundary,
`m_MaxSpeed > 10`) and every `dt` with `0 ≤ dt ≤ 2`, `dt ≠ 1`, the tick has a
value in which agent 0 has velocity `(10,0)` and agent 1 has velocity
`(10 * dt - 10, 0)`; for `dt = 0` that is `(-10,0)`. -/
theorem update_pair_velocities (sqrt : F → F) (dt m ms : F) (bounds : Boundary2f F)
    (repel : Vec2f F) (near : List Nat) (hm : 0 < m) (hms : 10 < ms)
    (hx1 : bounds.min.x < 0) (hx2 : 10 < bounds.max.x)
    (hy1 : bounds.min.y < 0) (hy2 : 0 < bounds.max.y)
    (hdt0 : 0 ≤ dt) (hdt2 : dt ≤ 2) (hdt1 : dt ≠ 1) :
    ∃ s2 : BoidSystem F, BoidSystem.update sqrt dt (pair m ms bounds repel near) = some s2 ∧
      s2.m_Boids.map (fun b => b.m_Velocity) = [⟨10, 0⟩, ⟨10 * dt - 10, 0⟩] ∧
      (dt = 0 → s2.m_Boids.map (fun b => b.m_Velocity) = [⟨10, 0⟩, ⟨-10, 0⟩]) := by
  refine ⟨pairAfter dt m ms bounds repel,
    update_pair sqrt dt m ms bounds repel near hm.ne' hms hx1 hx2 hy1 hy2 hdt0 hdt2 hdt1,
    rfl, ?_⟩
  intro h0
  subst h0
  simp [pairAfter]

/-- Witness of C4 (amended): `dt = 0`, where agent 1 does end with `(-10,0)`. -/
theorem update_pair_velocities_witness :
    ∃ s2 : BoidSystem ℚ,
      BoidSystem.update (fun x => x) 0 (pair 1 20 (wideBounds ℚ) ⟨5, 5⟩ []) = some s2 ∧
      s2.m_Boids.map (fun b => b.m_Velocity) = [⟨10, 0⟩, ⟨-10, 0⟩] := by
  obtain ⟨s2, h1, _, h3⟩ := update_pair_velocities (fun x : ℚ => x) 0 1 20 (wideBounds ℚ)
    ⟨5, 5⟩ [] (by norm_num) (by norm_num) (by norm_num [wideBounds])
    (by norm_num [wideBounds]) (by norm_num [wideBounds]) (by norm_num [wideBounds])
    (by norm_num) (by norm_num) (by norm_num)
  exact ⟨s2, h1, h3 rfl⟩

end Claims

end SchoolsOfFish
